import Mathlib

/-!
Verification of the dpdk_cex_source gateway against its specification.

Shallow embedding of the parts of the source the checked claims are about:

* `HftClassifier::classify` (src/modules/classifier/classifier.h) — packet
  classification into fast and slow paths;
* `lcore_forward_loop` (src/core/forwarding.cpp) — the ingress stage of the
  dataplane burst loop: refcount duplication, HFT-ring enqueue, kernel-TX
  batch construction;
* `OrderBook` / `OrderBookManager` (src/modules/market_data/order_book.h and
  its implementation) — snapshot and delta merging, BBO queries;
* `BoostWebSocketClient::schedule_reconnect` and the async reconnect handler
  chain (src/modules/network/boost_websocket_client.cpp);
* `UdpPublisher::serialize_and_send` (udp_publisher.cpp) — the binary UDP
  market-data frame;
* `BybitAdapter::parse_orderbook_message` (bybit_adapter.cpp).

Machine integers are modelled as `Nat` with explicit reductions modulo
powers of 256 where the code truncates; C++ `double` values that the checked
claims only store, compare with zero, or move as opaque bit patterns are
modelled as `ℚ` (for stored sizes) or as their 64-bit IEEE-754 bit pattern
(for serialization, which only `memcpy`s and byte-swaps them).
-/

namespace DpdkCex

/-! ## Classifier (src/modules/classifier/classifier.h)

`TrafficType` is the verdict enumeration from core/types.h.  An `rte_mbuf`'s
data buffer is modelled as a total byte map together with the frame's data
length: `classify` dereferences header fields by pointer arithmetic and
performs no bounds checks, so it can read buffer bytes beyond the frame
length; those bytes exist in the mbuf data room and are modelled as
arbitrary values of the `mem` map. -/

inductive TrafficType where
  | HFT
  | STANDARD
  | IGNORE
deriving DecidableEq, Repr

/-- An `rte_mbuf` as the classifier sees it: the data buffer contents
(`mem i` is the byte at offset `i`, a value below 256) and the frame's
data length.  `classify` never consults `len`. -/
structure Mbuf where
  mem : Nat → Nat
  len : Nat

/-- Big-endian 16-bit read, as done by `rte_be_to_cpu_16` on two buffer
bytes. -/
def be16 (hi lo : Nat) : Nat := hi * 256 + lo

/-- The Ethernet type field: bytes 12 and 13 of the frame, big-endian. -/
def etherTypeOf (m : Mbuf) : Nat := be16 (m.mem 12) (m.mem 13)

/-- The IPv4 protocol byte `next_proto_id`: offset 9 inside the IPv4 header,
which starts right after the 14-byte Ethernet header. -/
def ipProtoOf (m : Mbuf) : Nat := m.mem 23

/-- Offset of the TCP header: 14 plus IHL (low nibble of the first IPv4
byte) times 4, exactly the pointer arithmetic of the source. -/
def tcpOffsetOf (m : Mbuf) : Nat := 14 + m.mem 14 % 16 * 4

/-- TCP source port, big-endian at the computed TCP header offset. -/
def srcPortOf (m : Mbuf) : Nat := be16 (m.mem (tcpOffsetOf m)) (m.mem (tcpOffsetOf m + 1))

/-- TCP destination port, big-endian two bytes after the source port. -/
def dstPortOf (m : Mbuf) : Nat := be16 (m.mem (tcpOffsetOf m + 2)) (m.mem (tcpOffsetOf m + 3))

/-- `HftClassifier::classify`, translated statement by statement from
classifier.cpp (debug printing elided; it does not affect the verdict).
`0x0800` is `RTE_ETHER_TYPE_IPV4`, 17 is `IPPROTO_UDP`, 6 is
`IPPROTO_TCP`. -/
def classify (m : Mbuf) : TrafficType :=
  if etherTypeOf m ≠ 0x0800 then
    TrafficType.STANDARD
  else if ipProtoOf m = 17 then
    TrafficType.STANDARD
  else if ipProtoOf m = 6 then
    if srcPortOf m = 8443 ∨ dstPortOf m = 8443 then TrafficType.HFT
    else if srcPortOf m = 443 ∨ dstPortOf m = 443 then TrafficType.HFT
    else TrafficType.STANDARD
  else
    TrafficType.STANDARD

/-- The ordered verdict rules exactly as the specification words them
(spec §4.1): non-IPv4 → SLOW; UDP → SLOW; TCP with source or destination
port 8443 or 443 → FAST; otherwise SLOW. -/
def specVerdict (m : Mbuf) : TrafficType :=
  if etherTypeOf m ≠ 0x0800 then
    TrafficType.STANDARD
  else if ipProtoOf m = 17 then
    TrafficType.STANDARD
  else if ipProtoOf m = 6 ∧
      (srcPortOf m = 8443 ∨ srcPortOf m = 443 ∨ dstPortOf m = 8443 ∨ dstPortOf m = 443) then
    TrafficType.HFT
  else
    TrafficType.STANDARD

/-- C2: the classifier follows the spec's ordered rules. -/
theorem classify_follows_spec_rules (m : Mbuf) : classify m = specVerdict m := by
  unfold classify specVerdict
  by_cases h1 : etherTypeOf m ≠ 0x0800
  · simp [h1]
  · by_cases h2 : ipProtoOf m = 17
    · simp [h1, h2]
    · by_cases h3 : ipProtoOf m = 6
      · by_cases h4 : srcPortOf m = 8443 ∨ dstPortOf m = 8443
        · rcases h4 with h4 | h4 <;> simp [h1, h2, h3, h4]
        · by_cases h5 : srcPortOf m = 443 ∨ dstPortOf m = 443
          · rcases h5 with h5 | h5 <;> simp [h1, h2, h3, h5]
          · push_neg at h4 h5
            simp [h1, h2, h3, h4.1, h4.2, h5.1, h5.2]
      · simp [h1, h2, h3]

/-- A concrete minimal Eth/IPv4/TCP buffer image with destination port
8443 (only the bytes the classifier reads are set). -/
def fastMem : Nat → Nat := fun i =>
  if i = 12 then 0x08 else if i = 13 then 0x00
  else if i = 14 then 0x45 else if i = 23 then 6
  else if i = 36 then 32 else if i = 37 then 251
  else 0

/-- A 54-byte frame carrying `fastMem`. -/
def fastMbuf : Mbuf := { mem := fastMem, len := 54 }

/-- A zero-length (fully truncated) frame over the same buffer contents:
the classifier still reads the stale buffer bytes. -/
def truncatedFastMbuf : Mbuf := { mem := fastMem, len := 0 }

/-- C9 counterexample: a fully truncated frame (data length 0, shorter than
every header the classifier reads) is classified `HFT`, not
`TRAFFIC_TYPE_STANDARD`, because `classify` performs no bounds checks and
reads whatever bytes sit at the header offsets in the buffer.  The claim
that such a packet always gets the SLOW verdict is therefore false. -/
theorem classify_truncated_not_always_slow :
    truncatedFastMbuf.len = 0 ∧
      classify truncatedFastMbuf = TrafficType.HFT ∧
      classify truncatedFastMbuf ≠ TrafficType.STANDARD := by
  refine ⟨rfl, ?_, ?_⟩ <;> decide

/-- C9 amended: the classifier performs no header bounds checks — its
verdict does not depend on the frame length at all — and it never returns
the drop verdict `TRAFFIC_TYPE_IGNORE`, so every packet, malformed or
truncated or not, is given `HFT` or `STANDARD` and stays on a forwarding
path to the kernel. -/
theorem classify_ignores_length_and_never_drops (m : Mbuf) :
    (∀ n, classify { m with len := n } = classify m) ∧
      classify m ≠ TrafficType.IGNORE := by
  constructor
  · intro n
    rfl
  · unfold classify
    split
    · simp
    · split
      · simp
      · split
        · split
          · simp
          · split <;> simp
        · simp

/-! ## Forwarding dataplane ingress (src/core/forwarding.cpp, lines 77–127)

For each received packet of a burst, `lcore_forward_loop` classifies it;
when the verdict is `TRAFFIC_TYPE_HFT` it increments the packet's refcount
(`rte_pktmbuf_refcnt_update(m, 1)`), attempts a single-producer enqueue of
the same handle into the bounded `hft_ring`, on enqueue failure frees the
duplicate reference (`rte_pktmbuf_free`), and in every case appends the
original handle exactly once to the kernel-TX batch.  The embedding tracks,
per packet id, the refcount increments (`incs`) and the frees issued for
failed duplicates (`frees`), alongside the ring contents and the kernel-TX
batch built by the iteration. -/

/-- A packet handle in a burst: a pool-unique handle id plus the frame the
classifier reads. -/
structure Pkt where
  id : Nat
  buf : Mbuf

/-- The dataplane state the ingress stage manipulates. -/
structure DpState where
  ring : List Nat
  kernelTx : List Nat
  incs : List Nat
  frees : List Nat

/-- `rte_ring_sp_enqueue` on a bounded ring: fails exactly when the ring is
full, otherwise appends in producer order. -/
def ringEnqueue (cap : Nat) (r : List Nat) (x : Nat) : Option (List Nat) :=
  if r.length < cap then some (r ++ [x]) else none

/-- One iteration of the per-packet ingress body of `lcore_forward_loop`. -/
def forwardOne (cap : Nat) (st : DpState) (p : Pkt) : DpState :=
  match classify p.buf with
  | TrafficType.HFT =>
    let st2 : DpState := { st with incs := st.incs ++ [p.id] }
    match ringEnqueue cap st2.ring p.id with
    | some r2 => { st2 with ring := r2, kernelTx := st2.kernelTx ++ [p.id] }
    | none =>
      { st2 with frees := st2.frees ++ [p.id], kernelTx := st2.kernelTx ++ [p.id] }
  | _ => { st with kernelTx := st.kernelTx ++ [p.id] }

/-- The ingress loop over one received burst: ring contents `r0` persist
from earlier iterations, the kernel-TX batch and the accounting lists start
empty for the burst. -/
def processBurst (cap : Nat) (r0 : List Nat) (burst : List Pkt) : DpState :=
  burst.foldl (forwardOne cap) { ring := r0, kernelTx := [], incs := [], frees := [] }

/-- A packet different from `x` leaves every `x`-count unchanged. -/
theorem forwardOne_counts_other (cap : Nat) (st : DpState) (p : Pkt) (x : Nat)
    (h : p.id ≠ x) :
    ((forwardOne cap st p).incs.count x = st.incs.count x) ∧
      ((forwardOne cap st p).frees.count x = st.frees.count x) ∧
      ((forwardOne cap st p).ring.count x = st.ring.count x) ∧
      ((forwardOne cap st p).kernelTx.count x = st.kernelTx.count x) := by
  have hx : x ≠ p.id := fun hh => h hh.symm
  have hc : List.count x [p.id] = 0 := by simp [hx]
  unfold forwardOne
  cases classify p.buf
  case HFT =>
    simp only [ringEnqueue]
    by_cases hfull : st.ring.length < cap <;>
      simp [hfull, List.count_append, hc]
  case STANDARD => simp [List.count_append, hc]
  case IGNORE => simp [List.count_append, hc]

theorem foldl_counts_other (cap : Nat) (l : List Pkt) (x : Nat)
    (h : ∀ p ∈ l, p.id ≠ x) (st : DpState) :
    ((l.foldl (forwardOne cap) st).incs.count x = st.incs.count x) ∧
      ((l.foldl (forwardOne cap) st).frees.count x = st.frees.count x) ∧
      ((l.foldl (forwardOne cap) st).ring.count x = st.ring.count x) ∧
      ((l.foldl (forwardOne cap) st).kernelTx.count x = st.kernelTx.count x) := by
  induction l generalizing st with
  | nil => simp
  | cons p rest ih =>
    have hp : p.id ≠ x := h p (by simp)
    have hrest : ∀ q ∈ rest, q.id ≠ x := fun q hq => h q (by simp [hq])
    have hstep := forwardOne_counts_other cap st p x hp
    have htail := ih hrest (forwardOne cap st p)
    simp only [List.foldl_cons]
    exact ⟨htail.1.trans hstep.1, htail.2.1.trans hstep.2.1,
      htail.2.2.1.trans hstep.2.2.1, htail.2.2.2.trans hstep.2.2.2⟩

/-- Processing the FAST packet itself: one increment, one kernel-TX
append, and either one ring occurrence (enqueue succeeded) or one free of
the duplicate (ring full). -/
theorem forwardOne_counts_self (cap : Nat) (st : DpState) (p : Pkt)
    (hcls : classify p.buf = TrafficType.HFT) :
    ((forwardOne cap st p).incs.count p.id = st.incs.count p.id + 1) ∧
      ((forwardOne cap st p).kernelTx.count p.id = st.kernelTx.count p.id + 1) ∧
      (((forwardOne cap st p).ring.count p.id = st.ring.count p.id + 1 ∧
          (forwardOne cap st p).frees.count p.id = st.frees.count p.id) ∨
        ((forwardOne cap st p).ring.count p.id = st.ring.count p.id ∧
          (forwardOne cap st p).frees.count p.id = st.frees.count p.id + 1)) := by
  unfold forwardOne
  rw [hcls]
  simp only [ringEnqueue]
  by_cases hfull : st.ring.length < cap
  · refine ⟨by simp [List.count_append, hfull], by simp [List.count_append, hfull], Or.inl ⟨?_, ?_⟩⟩ <;>
      simp [List.count_append, hfull]
  · refine ⟨by simp [List.count_append, hfull], by simp [List.count_append, hfull], Or.inr ⟨?_, ?_⟩⟩ <;>
      simp [List.count_append, hfull]

/-- C1: for a FAST-classified packet of an ingress burst (handles in a
burst are pairwise distinct, and a freshly received handle is not already
sitting in the ring), the ingress stage increments its refcount exactly
once, puts it exactly once into the kernel-TX batch, at most once into the
HFT ring, and balances the accounting: the one increment is matched by
exactly one ring reference or — when the enqueue failed — by exactly one
free of the duplicate, with the packet still in the kernel-TX batch.  In
particular no handle is double-freed (frees never exceed increments) and
none leaks (every increment is either visible in the ring or freed). -/
theorem fast_packet_refcount_accounting (cap : Nat) (r0 : List Nat)
    (burst : List Pkt) (hnd : (burst.map Pkt.id).Nodup) (p : Pkt)
    (hmem : p ∈ burst) (hcls : classify p.buf = TrafficType.HFT)
    (hr0 : p.id ∉ r0) :
    ((processBurst cap r0 burst).incs.count p.id = 1) ∧
      ((processBurst cap r0 burst).kernelTx.count p.id = 1) ∧
      ((processBurst cap r0 burst).ring.count p.id ≤ 1) ∧
      ((processBurst cap r0 burst).incs.count p.id =
        (processBurst cap r0 burst).frees.count p.id +
          (processBurst cap r0 burst).ring.count p.id) ∧
      (p.id ∉ (processBurst cap r0 burst).ring →
        (processBurst cap r0 burst).frees.count p.id = 1 ∧
          p.id ∈ (processBurst cap r0 burst).kernelTx) := by
  obtain ⟨l1, l2, rfl⟩ := List.append_of_mem hmem
  have hnd2 : (l1.map Pkt.id ++ p.id :: l2.map Pkt.id).Nodup := by simpa using hnd
  obtain ⟨hnd1, hndc, hdisj⟩ := List.nodup_append.mp hnd2
  have hsplit : ∀ q ∈ l1, q.id ≠ p.id := fun q hq hqp =>
    hdisj (List.mem_map_of_mem Pkt.id hq) (by simp [hqp])
  have hpnotl2 : p.id ∉ l2.map Pkt.id := (List.nodup_cons.mp hndc).1
  have hsplit2 : ∀ q ∈ l2, q.id ≠ p.id := fun q hq hqp =>
    hpnotl2 (hqp ▸ List.mem_map_of_mem Pkt.id hq)
  have hfold : processBurst cap r0 (l1 ++ p :: l2) =
      l2.foldl (forwardOne cap)
        (forwardOne cap
          (l1.foldl (forwardOne cap)
            { ring := r0, kernelTx := [], incs := [], frees := [] }) p) := by
    simp [processBurst, List.foldl_append]
  have h1 := foldl_counts_other cap l1 p.id hsplit
    { ring := r0, kernelTx := [], incs := [], frees := [] }
  have h1incs : (l1.foldl (forwardOne cap)
      { ring := r0, kernelTx := [], incs := [], frees := [] }).incs.count p.id = 0 := by
    simpa using h1.1
  have h1frees : (l1.foldl (forwardOne cap)
      { ring := r0, kernelTx := [], incs := [], frees := [] }).frees.count p.id = 0 := by
    simpa using h1.2.1
  have h1ring : (l1.foldl (forwardOne cap)
      { ring := r0, kernelTx := [], incs := [], frees := [] }).ring.count p.id = 0 :=
    h1.2.2.1.trans (List.count_eq_zero.mpr hr0)
  have h1ktx : (l1.foldl (forwardOne cap)
      { ring := r0, kernelTx := [], incs := [], frees := [] }).kernelTx.count p.id = 0 := by
    simpa using h1.2.2.2
  have h2 := forwardOne_counts_self cap
    (l1.foldl (forwardOne cap) { ring := r0, kernelTx := [], incs := [], frees := [] })
    p hcls
  have h3 := foldl_counts_other cap l2 p.id hsplit2
    (forwardOne cap
      (l1.foldl (forwardOne cap) { ring := r0, kernelTx := [], incs := [], frees := [] }) p)
  rw [hfold]
  rw [h1incs] at h2
  rw [h1ktx] at h2
  refine ⟨?_, ?_, ?_, ?_, ?_⟩
  · rw [h3.1, h2.1]
  · rw [h3.2.2.2, h2.2.1]
  · rw [h3.2.2.1]
    rcases h2.2.2 with ⟨hr, _⟩ | ⟨hr, _⟩
    · rw [hr, h1ring]
    · rw [hr, h1ring]
      norm_num
  · rw [h3.1, h3.2.1, h3.2.2.1, h2.1]
    rcases h2.2.2 with ⟨hr, hf⟩ | ⟨hr, hf⟩ <;> rw [hr, hf, h1ring, h1frees]
  · intro hnotin
    have hringc := List.count_eq_zero.mpr hnotin
    rw [h3.2.2.1] at hringc
    have hktx1 : (l2.foldl (forwardOne cap)
        (forwardOne cap (l1.foldl (forwardOne cap)
          { ring := r0, kernelTx := [], incs := [], frees := [] }) p)).kernelTx.count p.id
        = 1 := by
      rw [h3.2.2.2, h2.2.1]
    refine ⟨?_, ?_⟩
    · rw [h3.2.1]
      rcases h2.2.2 with ⟨hr, hf⟩ | ⟨hr, hf⟩
      · rw [hr, h1ring] at hringc
        omega
      · rw [hf, h1frees]
    · have := hktx1
      exact List.count_pos_iff.mp (by omega)

/-- C1 witness: the accounting theorem applied to a one-packet burst
holding the concrete FAST frame, with an empty ring of capacity 0 so the
enqueue fails: the increment count is still exactly 1. -/
theorem fast_packet_refcount_accounting_witness :
    (processBurst 0 [] [{ id := 1, buf := fastMbuf }]).incs.count 1 = 1 :=
  (fast_packet_refcount_accounting 0 [] [{ id := 1, buf := fastMbuf }]
    (by decide) { id := 1, buf := fastMbuf } (by simp) (by decide) (by simp)).1

/-! ## Order book (src/modules/market_data/order_book.h, order_book.cpp)

Each side of the book is a `std::map` with unique `uint64_t` price keys and
`double` sizes; bids are sorted descending, asks ascending.  A side is
modelled as an association list sorted by the side's comparator with no
duplicate keys; sizes are modelled as `ℚ` (the code only stores them and
compares them with 0).  `std::map::operator[]`-style insertion and
`erase(key)` are `mapInsert` and `mapErase`. -/

inductive Side where
  | BID
  | ASK
deriving DecidableEq, Repr

/-- `OrderBookUpdate` from json_parser.h. -/
structure OrderBookUpdate where
  price_int : Nat
  quantity : ℚ
  side : Side
  is_delete : Bool
deriving DecidableEq, Repr

/-- One side of the book: price-keyed levels, best first. -/
abbrev BookSide := List (Nat × ℚ)

/-- `std::map` insert-or-assign into a side kept sorted by the strict
comparator `lt` (best price first). -/
def mapInsert (lt : Nat → Nat → Bool) (k : Nat) (v : ℚ) : BookSide → BookSide
  | [] => [(k, v)]
  | (k0, v0) :: rest =>
    if lt k k0 then (k, v) :: (k0, v0) :: rest
    else if k = k0 then (k, v) :: rest
    else (k0, v0) :: mapInsert lt k v rest

/-- `std::map::erase(key)`: remove the level at price `k` (sides never hold
duplicate keys, so removing every occurrence coincides with removing the
unique one). -/
def mapErase (k : Nat) : BookSide → BookSide
  | [] => []
  | (k0, v0) :: rest =>
    if k0 = k then mapErase k rest else (k0, v0) :: mapErase k rest

/-- Level lookup by price key, as `std::map::find`. -/
def sideLookup (k : Nat) : BookSide → Option ℚ
  | [] => none
  | (k0, v0) :: rest => if k0 = k then some v0 else sideLookup k rest

/-- `std::greater` on bid keys: the first (best) bid is the highest. -/
def bidLt (a b : Nat) : Bool := b < a

/-- `std::less` on ask keys: the first (best) ask is the lowest. -/
def askLt (a b : Nat) : Bool := a < b

/-- The `OrderBook` state: `bids_` and `asks_` (locking elided: every
operation of the claims holds the book's writer lock for its whole
duration, so the lock-protected body is the sequential function below). -/
structure OrderBook where
  bids : BookSide
  asks : BookSide
deriving DecidableEq, Repr

def OrderBook.empty : OrderBook := { bids := [], asks := [] }

/-- `OrderBook::apply_update_internal`, line for line: an update deletes
when `is_delete` is set or the quantity is ≤ 0, else inserts/overwrites on
its side. -/
def apply_update_internal (u : OrderBookUpdate) (bk : OrderBook) : OrderBook :=
  let is_delete := u.is_delete || decide (u.quantity ≤ 0)
  match u.side with
  | Side.BID =>
    if is_delete then { bk with bids := mapErase u.price_int bk.bids }
    else { bk with bids := mapInsert bidLt u.price_int u.quantity bk.bids }
  | Side.ASK =>
    if is_delete then { bk with asks := mapErase u.price_int bk.asks }
    else { bk with asks := mapInsert askLt u.price_int u.quantity bk.asks }

/-- `OrderBook::clear`. -/
def OrderBook.clear (_bk : OrderBook) : OrderBook := OrderBook.empty

/-- `OrderBook::apply_snapshot`: clear both sides, then apply every update
in order. -/
def apply_snapshot (us : List OrderBookUpdate) (_bk : OrderBook) : OrderBook :=
  us.foldl (fun b u => apply_update_internal u b) OrderBook.empty

/-- `OrderBook::apply_updates`: merge each update in turn. -/
def apply_updates (us : List OrderBookUpdate) (bk : OrderBook) : OrderBook :=
  us.foldl (fun b u => apply_update_internal u b) bk

/-- `OrderBook::apply_update`. -/
def apply_update (u : OrderBookUpdate) (bk : OrderBook) : OrderBook :=
  apply_update_internal u bk

/-- Side of the book addressed by an update. -/
def OrderBook.side (bk : OrderBook) : Side → BookSide
  | Side.BID => bk.bids
  | Side.ASK => bk.asks

/-- The level an update leaves at its own price: none when it deletes,
its quantity otherwise. -/
def effectOf (u : OrderBookUpdate) : Option ℚ :=
  if u.is_delete || decide (u.quantity ≤ 0) then none else some u.quantity

/-- The last update of `us` addressed to side `s` at price `p`. -/
def lastUpdateAt (us : List OrderBookUpdate) (s : Side) (p : Nat) :
    Option OrderBookUpdate :=
  (us.filter (fun u => decide (u.side = s) && decide (u.price_int = p))).getLast?

theorem sideLookup_mapErase (k k0 : Nat) (s : BookSide) :
    sideLookup k (mapErase k0 s) = if k = k0 then none else sideLookup k s := by
  induction s with
  | nil => simp [mapErase, sideLookup]
  | cons a rest ih =>
    obtain ⟨a1, a2⟩ := a
    by_cases hk : a1 = k0
    · subst hk
      by_cases hkk : k = a1
      · subst hkk
        simpa [mapErase, sideLookup] using ih
      · have hka : ¬ a1 = k := fun h => hkk h.symm
        simp [mapErase, sideLookup, hkk, hka, ih]
    · by_cases ha : a1 = k
      · have hkk : ¬ k = k0 := fun h => hk (ha.trans h)
        simp [mapErase, sideLookup, hk, ha, hkk]
      · simp [mapErase, sideLookup, hk, ha, ih]

theorem sideLookup_mapInsert (lt : Nat → Nat → Bool) (k k0 : Nat) (v : ℚ)
    (s : BookSide) :
    sideLookup k (mapInsert lt k0 v s) = if k = k0 then some v else sideLookup k s := by
  induction s with
  | nil =>
    by_cases hkk : k = k0
    · subst hkk
      simp [mapInsert, sideLookup]
    · rw [if_neg hkk]
      simp [mapInsert, sideLookup]
      exact fun h => hkk h.symm
  | cons a rest ih =>
    obtain ⟨a1, a2⟩ := a
    simp only [mapInsert]
    by_cases hkk : k = k0
    · subst hkk
      rw [if_pos rfl]
      by_cases hlt : lt k a1
      · simp [sideLookup, hlt]
      · by_cases heq : k = a1
        · subst heq
          split <;> simp [sideLookup]
        · have ha : ¬ a1 = k := fun h => heq h.symm
          simp [sideLookup, hlt, heq, ha, ih]
    · rw [if_neg hkk]
      have hk0k : ¬ k0 = k := fun h => hkk h.symm
      by_cases hlt : lt k0 a1
      · simp [sideLookup, hlt, hk0k]
      · by_cases heq : k0 = a1
        · subst heq
          simp [sideLookup, hlt, hk0k]
        · by_cases ha : a1 = k
          · subst ha
            split
            · simp [sideLookup, hk0k]
            · simp [sideLookup]
          · simp [sideLookup, hlt, heq, ha, ih, hkk]

/-- Effect of one `apply_update_internal` on a lookup: the update's own
(side, price) takes its effect, every other level is untouched. -/
theorem sideLookup_apply_update_internal (u : OrderBookUpdate) (bk : OrderBook)
    (s : Side) (p : Nat) :
    sideLookup p ((apply_update_internal u bk).side s) =
      if u.side = s ∧ u.price_int = p then effectOf u
      else sideLookup p (bk.side s) := by
  obtain ⟨price, q, uside, del⟩ := u
  rcases eq_or_ne price p with hp | hp
  · subst hp
    cases uside <;> cases s <;>
      by_cases hdel : (del || decide (q ≤ 0)) = true <;>
      simp [apply_update_internal, OrderBook.side, effectOf, hdel,
        sideLookup_mapErase, sideLookup_mapInsert]
  · have hp2 : ¬ p = price := fun h => hp h.symm
    cases uside <;> cases s <;>
      by_cases hdel : (del || decide (q ≤ 0)) = true <;>
      simp [apply_update_internal, OrderBook.side, effectOf, hdel, hp, hp2,
        sideLookup_mapErase, sideLookup_mapInsert]

/-- C3 counterexample input: two bid updates at the same price, the second
deleting the level. -/
def dupSnapshotUpdates : List OrderBookUpdate :=
  [{ price_int := 100, quantity := 2, side := Side.BID, is_delete := false },
   { price_int := 100, quantity := 0, side := Side.BID, is_delete := false }]

/-- C3 counterexample: price 100 appears in the update list with size 2 > 0,
yet after `apply_snapshot` the book holds no level at 100 on the bid side —
a later update at the same price wins, so the book does not contain "exactly
that price with that size" for every positive-size entry of the list. -/
theorem apply_snapshot_dup_price_refutes_claim :
    ({ price_int := 100, quantity := 2, side := Side.BID, is_delete := false } ∈
        dupSnapshotUpdates ∧ (0 : ℚ) < 2) ∧
      sideLookup 100 (apply_snapshot dupSnapshotUpdates OrderBook.empty).bids ≠ some 2 := by
  refine ⟨⟨by decide, by norm_num⟩, ?_⟩
  decide

/-- C3 amended: after `apply_snapshot U` (both sides having been cleared
first), the level at price `p` on side `s` is determined by the last update
of `U` addressed to `(s, p)`: absent if there is none or it deletes
(`is_delete` set or size ≤ 0), and exactly that update's size otherwise.
In particular, when each (price, side) occurs at most once in `U` and
`is_delete` is only set alongside a nonpositive size, every positive-size
entry of `U` is present with its size and nothing else is. -/
theorem apply_snapshot_last_update_wins (us : List OrderBookUpdate)
    (bk : OrderBook) (s : Side) (p : Nat) :
    sideLookup p ((apply_snapshot us bk).side s) =
      (lastUpdateAt us s p).bind effectOf := by
  induction us using List.reverseRecOn with
  | nil => cases s <;> simp [apply_snapshot, lastUpdateAt, OrderBook.side,
      OrderBook.empty, sideLookup]
  | append_singleton us u ih =>
    have hstep : apply_snapshot (us ++ [u]) bk =
        apply_update_internal u (apply_snapshot us bk) := by
      simp [apply_snapshot, List.foldl_append]
    rw [hstep, sideLookup_apply_update_internal, ih]
    by_cases hm : u.side = s ∧ u.price_int = p
    · simp [lastUpdateAt, List.filter_append, hm.1, hm.2]
    · have : (decide (u.side = s) && decide (u.price_int = p)) = false := by
        rcases not_and_or.mp hm with h | h <;> simp [h]
      simp [lastUpdateAt, List.filter_append, this, hm]

/-! ### Invariants (claim C7) -/

/-- Every stored level has a size strictly greater than 0. -/
def sizesPos (s : BookSide) : Prop := ∀ kv ∈ s, (0 : ℚ) < kv.2

/-- No price key appears simultaneously on both sides. -/
def sidesDisjoint (bk : OrderBook) : Prop :=
  ∀ kv ∈ bk.bids, ∀ kv2 ∈ bk.asks, kv.1 ≠ kv2.1

theorem mem_mapErase {kv : Nat × ℚ} {k : Nat} {s : BookSide}
    (h : kv ∈ mapErase k s) : kv ∈ s := by
  induction s with
  | nil => simp [mapErase] at h
  | cons a rest ih =>
    obtain ⟨a1, a2⟩ := a
    by_cases hk : a1 = k
    · simp [mapErase, hk] at h
      exact List.mem_cons_of_mem _ (ih h)
    · simp [mapErase, hk] at h
      rcases h with h | h
      · simp [h]
      · exact List.mem_cons_of_mem _ (ih h)

theorem mem_mapInsert {kv : Nat × ℚ} {lt : Nat → Nat → Bool} {k : Nat} {v : ℚ}
    {s : BookSide} (h : kv ∈ mapInsert lt k v s) : kv = (k, v) ∨ kv ∈ s := by
  induction s with
  | nil => simpa [mapInsert] using h
  | cons a rest ih =>
    obtain ⟨a1, a2⟩ := a
    simp only [mapInsert] at h
    by_cases hlt : lt k a1
    · rw [if_pos hlt] at h
      simp only [List.mem_cons] at h
      rcases h with h | h | h
      · exact Or.inl h
      · exact Or.inr (by simp [h])
      · exact Or.inr (List.mem_cons_of_mem _ h)
    · rw [if_neg hlt] at h
      by_cases heq : k = a1
      · rw [if_pos heq] at h
        simp only [List.mem_cons] at h
        rcases h with h | h
        · exact Or.inl h
        · exact Or.inr (List.mem_cons_of_mem _ h)
      · rw [if_neg heq] at h
        simp only [List.mem_cons] at h
        rcases h with h | h
        · exact Or.inr (by simp [h])
        · rcases ih h with h2 | h2
          · exact Or.inl h2
          · exact Or.inr (List.mem_cons_of_mem _ h2)

theorem sizesPos_mapErase {k : Nat} {s : BookSide} (h : sizesPos s) :
    sizesPos (mapErase k s) := fun kv hm => h kv (mem_mapErase hm)

theorem sizesPos_mapInsert {lt : Nat → Nat → Bool} {k : Nat} {v : ℚ}
    {s : BookSide} (h : sizesPos s) (hv : 0 < v) :
    sizesPos (mapInsert lt k v s) := by
  intro kv hm
  rcases mem_mapInsert hm with h2 | h2
  · simpa [h2] using hv
  · exact h kv h2

/-- One update keeps both sides' sizes positive: a nonpositive quantity (or
the delete flag) erases, and only strictly positive quantities are ever
stored. -/
theorem sizesPos_apply_update_internal (u : OrderBookUpdate) (bk : OrderBook)
    (h : sizesPos bk.bids ∧ sizesPos bk.asks) :
    sizesPos (apply_update_internal u bk).bids ∧
      sizesPos (apply_update_internal u bk).asks := by
  obtain ⟨price, q, uside, del⟩ := u
  by_cases hdel : (del || decide (q ≤ 0)) = true
  · cases uside <;>
      exact ⟨by simpa [apply_update_internal, hdel] using
          (by first
            | exact sizesPos_mapErase h.1
            | exact h.1),
        by simpa [apply_update_internal, hdel] using
          (by first
            | exact sizesPos_mapErase h.2
            | exact h.2)⟩
  · have hq : (0 : ℚ) < q := by
      simp only [Bool.or_eq_true, decide_eq_true_eq] at hdel
      push_neg at hdel
      linarith [hdel.2]
    cases uside <;>
      exact ⟨by simpa [apply_update_internal, hdel] using
          (by first
            | exact sizesPos_mapInsert h.1 hq
            | exact h.1),
        by simpa [apply_update_internal, hdel] using
          (by first
            | exact sizesPos_mapInsert h.2 hq
            | exact h.2)⟩

theorem sizesPos_foldl (us : List OrderBookUpdate) (bk : OrderBook)
    (h : sizesPos bk.bids ∧ sizesPos bk.asks) :
    sizesPos (us.foldl (fun b u => apply_update_internal u b) bk).bids ∧
      sizesPos (us.foldl (fun b u => apply_update_internal u b) bk).asks := by
  induction us generalizing bk with
  | nil => simpa using h
  | cons u rest ih =>
    simpa using ih (apply_update_internal u bk) (sizesPos_apply_update_internal u bk h)

/-- C7 counterexample input: a book holding only the bid level (100 ↦ 1). -/
def c7Book : OrderBook := { bids := [(100, 1)], asks := [] }

/-- C7 counterexample input: an ask update at the same price 100. -/
def c7Update : OrderBookUpdate :=
  { price_int := 100, quantity := 1, side := Side.ASK, is_delete := false }

/-- C7 counterexample: `apply_update` does not preserve the invariant that
no price key appears on both sides.  Starting from a book satisfying both
claimed invariants, an ask update at a price already present on the bid
side inserts the key on the ask side without removing it from the bid side. -/
theorem apply_update_breaks_side_disjointness :
    (sidesDisjoint c7Book ∧ sizesPos c7Book.bids ∧ sizesPos c7Book.asks) ∧
      ¬ sidesDisjoint (apply_update c7Update c7Book) := by
  refine ⟨⟨?_, ?_, ?_⟩, ?_⟩ <;>
    simp only [sidesDisjoint, sizesPos] <;> decide

/-- C7 amended: every `OrderBook` operation — `apply_snapshot`,
`apply_updates`, `apply_update`, `clear` — preserves the invariant that
every stored key maps to a size strictly greater than 0.  Disjointness of
the two sides is not preserved: an update inserts on its own side and never
removes the price from the opposite side. -/
theorem orderbook_ops_preserve_positive_sizes (bk : OrderBook)
    (h : sizesPos bk.bids ∧ sizesPos bk.asks) (u : OrderBookUpdate)
    (us : List OrderBookUpdate) :
    (sizesPos (apply_update u bk).bids ∧ sizesPos (apply_update u bk).asks) ∧
      (sizesPos (apply_updates us bk).bids ∧ sizesPos (apply_updates us bk).asks) ∧
      (sizesPos (apply_snapshot us bk).bids ∧ sizesPos (apply_snapshot us bk).asks) ∧
      (sizesPos bk.clear.bids ∧ sizesPos bk.clear.asks) := by
  refine ⟨sizesPos_apply_update_internal u bk h, sizesPos_foldl us bk h, ?_, ?_⟩
  · exact sizesPos_foldl us OrderBook.empty (by simp [OrderBook.empty, sizesPos])
  · simp [OrderBook.clear, OrderBook.empty, sizesPos]

/-- C7 witness: the amended preservation theorem applied to the concrete
book holding bid (100 ↦ 1), the concrete ask update at price 50, and a
two-update list. -/
theorem orderbook_ops_preserve_positive_sizes_witness :
    sizesPos (apply_update
        { price_int := 50, quantity := 3, side := Side.ASK, is_delete := false }
        c7Book).bids := by
  have h := orderbook_ops_preserve_positive_sizes c7Book
    (by constructor <;> · simp only [sizesPos] ; decide)
    { price_int := 50, quantity := 3, side := Side.ASK, is_delete := false }
    [{ price_int := 7, quantity := 0, side := Side.BID, is_delete := false }]
  exact h.1.1

/-! ### BBO queries (claim C10) -/

/-- `BestBidOffer` from order_book.h: integer best prices and their sizes. -/
structure BestBidOffer where
  bid_price : Nat
  bid_qty : ℚ
  ask_price : Nat
  ask_qty : ℚ
deriving DecidableEq, Repr

/-- `OrderBook::get_bbo`: false when either side is empty, else the first
(best) level of each side; the C++ out-parameter is an `Option` here. -/
def get_bbo (bk : OrderBook) : Option BestBidOffer :=
  match bk.bids, bk.asks with
  | [], _ => none
  | _, [] => none
  | (bp, bq) :: _, (ap, aq) :: _ => some ⟨bp, bq, ap, aq⟩

/-- `static_cast<double>` on a `uint64_t` price key.  Stored keys are real
price times 10^8; the cast is modelled exactly (the claims never depend on
the rounding such a cast performs above 2^53), and in particular it does
not divide the 10^8 scale back out. -/
def castU64ToDouble (n : Nat) : ℚ := (n : ℚ)

/-- Return value and out-parameters of `OrderBookManager::get_best_prices`
after the call: `ok` is the C++ return value, the four rationals are the
final values of the by-reference `double` arguments. -/
structure BestPricesResult where
  ok : Bool
  bid_price : ℚ
  bid_qty : ℚ
  ask_price : ℚ
  ask_qty : ℚ
deriving DecidableEq, Repr

/-- `OrderBookManager::get_best_prices` on the addressed book (the manager
looks the book up by exchange and instrument first; the claim is about
what happens to the out-parameters, so the embedding takes the book and the
four incoming out-parameter values directly). -/
def get_best_prices (bk : OrderBook) (bid_price bid_qty ask_price ask_qty : ℚ) :
    BestPricesResult :=
  match get_bbo bk with
  | some bbo => ⟨true, castU64ToDouble bbo.bid_price, bbo.bid_qty,
      castU64ToDouble bbo.ask_price, bbo.ask_qty⟩
  | none => ⟨false, bid_price, bid_qty, ask_price, ask_qty⟩

/-- The claim's description of `get_best_prices`: with both sides
non-empty it returns true and writes the stored integer price keys cast
directly to double — undivided by the 10^8 scale — together with the
corresponding sizes; otherwise false, all four outputs unchanged. -/
def specBestPrices (bk : OrderBook) (bid_price bid_qty ask_price ask_qty : ℚ) :
    BestPricesResult :=
  match bk.bids, bk.asks with
  | (bp, bq) :: _, (ap, aq) :: _ => ⟨true, (bp : ℚ), bq, (ap : ℚ), aq⟩
  | _, _ => ⟨false, bid_price, bid_qty, ask_price, ask_qty⟩

/-- C10: `get_best_prices` behaves exactly as the claim describes — true
with the undivided integer keys of the best levels cast to double when both
sides are non-empty, false leaving all four out-parameters unmodified
otherwise. -/
theorem get_best_prices_follows_claim (bk : OrderBook)
    (bid_price bid_qty ask_price ask_qty : ℚ) :
    get_best_prices bk bid_price bid_qty ask_price ask_qty =
      specBestPrices bk bid_price bid_qty ask_price ask_qty := by
  obtain ⟨bids, asks⟩ := bk
  cases bids <;> cases asks <;> rfl

/-! ## WebSocket reconnect backoff
(src/modules/network/boost_websocket_client.cpp)

`schedule_reconnect` gives up once the retry counter has reached
`max_attempts`; otherwise it increments the counter, computes
`initial * multiplier^(count-1)` as a `double` (modelled as `ℚ`; for the
reference parameters every intermediate value is an exact small integer,
so the model is exact), caps it at `max_delay_ms`, and arms the retry
timer with `(long)delay` milliseconds. -/

inductive ConnectionState where
  | Disconnected
  | Connecting
  | Connected
  | WaitingRetry
deriving DecidableEq, Repr

/-- The retry configuration fields of `BoostWebSocketClient`. -/
structure RetryParams where
  max_attempts : Nat
  initial_delay_ms : Nat
  max_delay_ms : Nat
  multiplier : ℚ

/-- The part of the client state `schedule_reconnect` reads and writes. -/
structure ClientRetryState where
  state : ConnectionState
  retry_count : Nat
deriving DecidableEq, Repr

/-- The C cast `(long)` applied to a nonnegative `double` delay: truncation
toward zero. -/
def ratTruncToNat (q : ℚ) : Nat := q.num.toNat / q.den

/-- The delay loop of `schedule_reconnect`: `for (int i = 1; i < rc; ++i)
delay *= multiplier` run `n = rc - 1` times starting from `d`. -/
def loopMul (m : ℚ) : Nat → ℚ → ℚ
  | 0, d => d
  | n + 1, d => loopMul m n (d * m)

/-- `BoostWebSocketClient::schedule_reconnect`: the returned option is the
timer delay in whole milliseconds (`(long)delay`), `none` when the attempt
budget is exhausted and no timer is armed. -/
def schedule_reconnect (p : RetryParams) (s : ClientRetryState) :
    ClientRetryState × Option Nat :=
  if s.retry_count ≥ p.max_attempts then
    ({ s with state := ConnectionState.Disconnected }, none)
  else
    let rc := s.retry_count + 1
    let delay0 : ℚ := loopMul p.multiplier (rc - 1) (p.initial_delay_ms : ℚ)
    let delay : ℚ := if delay0 > (p.max_delay_ms : ℚ) then (p.max_delay_ms : ℚ) else delay0
    ({ state := ConnectionState.WaitingRetry, retry_count := rc }, some (ratTruncToNat delay))

theorem loopMul_eq_pow (m : ℚ) (n : Nat) (d : ℚ) : loopMul m n d = d * m ^ n := by
  induction n generalizing d with
  | zero => simp [loopMul]
  | succ n ih => rw [loopMul, ih, pow_succ]; ring

/-- The reference retry parameters of the claim. -/
def refParams : RetryParams :=
  { max_attempts := 10, initial_delay_ms := 1000, max_delay_ms := 30000, multiplier := 2 }

/-- The delay schedule the claim states, in milliseconds. -/
def refDelays : List Nat :=
  [1000, 2000, 4000, 8000, 16000, 30000, 30000, 30000, 30000, 30000]

/-- C4: with the reference parameters, the k-th consecutive connection
failure (entered with retry counter k−1: the counter starts at 0, each
scheduling increments it by exactly 1, and nothing in the failure path
resets it) schedules exactly min(1000 · 2^(k−1), 30000) ms; that formula
gives the claimed sequence `refDelays`; and the failure after the 10th
attempt (counter 10) schedules nothing and puts the session in
`Disconnected`, where it remains. -/
theorem backoff_schedule_follows_claim :
    (∀ k, 1 ≤ k → k ≤ 10 →
      schedule_reconnect refParams
          { state := ConnectionState.Connecting, retry_count := k - 1 } =
        ({ state := ConnectionState.WaitingRetry, retry_count := k },
          some (min (1000 * 2 ^ (k - 1)) 30000))) ∧
      (List.range 10).map (fun j => min (1000 * 2 ^ j) 30000) = refDelays ∧
      schedule_reconnect refParams
          { state := ConnectionState.Connecting, retry_count := 10 } =
        ({ state := ConnectionState.Disconnected, retry_count := 10 }, none) := by
  refine ⟨?_, by decide, by norm_num [schedule_reconnect, refParams]⟩
  intro k h1 h2
  interval_cases k <;>
    norm_num [schedule_reconnect, refParams, loopMul_eq_pow, ratTruncToNat] <;> decide

/-- C4 witness: the schedule theorem instantiated at the 5th failure,
whose delay is 16000 ms, and the claim formula list evaluated. -/
theorem backoff_schedule_follows_claim_witness :
    schedule_reconnect refParams
        { state := ConnectionState.Connecting, retry_count := 5 - 1 } =
      ({ state := ConnectionState.WaitingRetry, retry_count := 5 },
        some (min (1000 * 2 ^ (5 - 1)) 30000)) :=
  backoff_schedule_follows_claim.1 5 (by norm_num) (by norm_num)

/-! ## UDP market-data frame (udp_publisher.cpp and the packed structs of
the network protocol header)

`UdpPublisher::serialize_and_send` fills the packed `UdpMarketHeader`
struct, byte-swapping every multi-byte field with `htonl` / `htons` /
`rte_cpu_to_be_64`, appends the struct's bytes to the datagram buffer,
then the symbol bytes, then one packed `UdpPriceLevel` per level (u64
byte-swapped price, the quantity double's bits byte-swapped), and performs
exactly one `sendto`.  The embedding replays the buffer construction on a
little-endian host: a stored w-byte field contributes its w bytes in
little-endian order, and the byte swap is modelled by `bswap`. -/

/-- The `w` bytes of `n` in little-endian order — the memory image of a
w-byte unsigned field holding `n` (truncated to `w` bytes) on a
little-endian host. -/
def toBytesLE (w n : Nat) : List Nat :=
  (List.range w).map (fun i => n / 256 ^ i % 256)

/-- The `w` bytes of `n` in big-endian order, as the spec's frame layout
reads ("u32 BE" and so on). -/
def toBytesBE (w n : Nat) : List Nat :=
  ((List.range w).map (fun i => n / 256 ^ i % 256)).reverse

/-- Reverse the low `w` bytes of `n`: the value whose little-endian byte
image is the big-endian image of `n`.  `htons`, `htonl` and
`rte_cpu_to_be_64` are `bswap 2`, `bswap 4` and `bswap 8`. -/
def bswap : Nat → Nat → Nat
  | 0, _ => 0
  | w + 1, n => bswap w n * 256 + n / 256 ^ w % 256

/-- `htons` on a little-endian host. -/
def htons (n : Nat) : Nat := bswap 2 n

/-- `htonl` on a little-endian host. -/
def htonl (n : Nat) : Nat := bswap 4 n

/-- `rte_cpu_to_be_64` on a little-endian host. -/
def cpu_to_be_64 (n : Nat) : Nat := bswap 8 n

theorem bswap_byte (w : Nat) : ∀ j n, j < w →
    bswap w n / 256 ^ j % 256 = n / 256 ^ (w - 1 - j) % 256 := by
  induction w with
  | zero => omega
  | succ w ih =>
    intro j n hj
    cases j with
    | zero =>
      simp only [bswap, pow_zero, Nat.div_one, Nat.succ_sub_one, Nat.sub_zero]
      omega
    | succ j2 =>
      have hj2 : j2 < w := by omega
      have hlt : n / 256 ^ w % 256 < 256 := Nat.mod_lt _ (by norm_num)
      have hdiv : bswap (w + 1) n / 256 ^ (j2 + 1) =
          bswap w n / 256 ^ j2 := by
        rw [bswap, pow_succ, Nat.mul_comm (256 ^ j2) 256, ← Nat.div_div_eq_div_mul]
        congr 1
        omega
      have hexp : w + 1 - 1 - (j2 + 1) = w - 1 - j2 := by omega
      rw [hdiv, ih j2 n hj2, hexp]

theorem toBytesLE_bswap (w n : Nat) : toBytesLE w (bswap w n) = toBytesBE w n := by
  apply List.ext_getElem
  · simp [toBytesLE, toBytesBE]
  · intro j h1 h2
    have hj : j < w := by simpa [toBytesLE] using h1
    simp only [toBytesLE, toBytesBE, List.getElem_reverse, List.getElem_map,
      List.getElem_range, List.length_map, List.length_range]
    rw [bswap_byte w j n hj]

/-! ## Bybit order-book parser (bybit_adapter.cpp)

`BybitAdapter::parse_orderbook_message` walks a simdjson DOM.  JSON
documents are modelled by the `Json` inductive (string leaves, unsigned
integer numbers — the only numeric field the parser reads is `data.ts`, a
`uint64_t` —, arrays and objects).  A simdjson accessor that would throw
(wrong type, missing index) yields `none`; the function's catch-all turning
any throw into `return false` is the propagation of `none`.  `std::stod` is
modelled on the decimal-numeral subset Bybit price and size strings use: an
unsigned integer part with an optional fractional part, longest-valid-prefix
semantics, exact rational value. -/

inductive Json where
  | str (s : String)
  | num (n : Nat)
  | arr (xs : List Json)
  | obj (fields : List (String × Json))

/-- `doc["k"]`: object field lookup; errors (`none`) on non-objects and
missing keys. -/
def Json.find (j : Json) (k : String) : Option Json :=
  match j with
  | Json.obj fs => (fs.find? (fun kv => kv.1 == k)).map (fun kv => kv.2)
  | _ => none

/-- `doc["k"].get(std::string_view)`: succeeds only on string fields. -/
def Json.getStr (j : Json) (k : String) : Option String :=
  match j.find k with
  | some (Json.str s) => some s
  | _ => none

/-- `doc["k"].get(uint64_t)`: succeeds only on integer number fields. -/
def Json.getNat (j : Json) (k : String) : Option Nat :=
  match j.find k with
  | some (Json.num n) => some n
  | _ => none

/-- `element.at(i)`: array indexing, throwing (`none`) otherwise. -/
def Json.at? (j : Json) (i : Nat) : Option Json :=
  match j with
  | Json.arr xs => xs[i]?
  | _ => none

/-- `element.at(i).get_string().value()`. -/
def Json.atStr (j : Json) (i : Nat) : Option String :=
  match j.at? i with
  | some (Json.str s) => some s
  | _ => none

/-- Does `pre` occur at the very start of `l`? -/
def listLeads : List Char → List Char → Bool
  | [], _ => true
  | _ :: _, [] => false
  | c :: cs, d :: ds => c == d && listLeads cs ds

/-- `std::string_view::find(needle) != npos`: `needle` occurs somewhere in
`hay`. -/
def containsSub (hay needle : List Char) : Bool :=
  match hay with
  | [] => needle.isEmpty
  | _ :: rest => listLeads needle hay || containsSub rest needle

/-- `topic.substr(topic.rfind(en_dot) + 1)`: the characters after the final
dot, `none` when `rfind` reports npos. -/
def afterLastDot : List Char → Option (List Char)
  | [] => none
  | c :: rest =>
    match afterLastDot rest with
    | some tail => some tail
    | none => if c == Char.ofNat 46 then some rest else none

/-- Numeric value of a digit string (most significant first). -/
def natOfDigits (cs : List Char) : Nat :=
  cs.foldl (fun a c => a * 10 + (c.toNat - 48)) 0

/-- `std::stod` on the unsigned decimal numerals the venue sends: longest
valid prefix of digits, optionally a dot and more digits; fails
(`std::invalid_argument`, caught by the parser) when no digit is found.
The value is exact (`ℚ`), which agrees with the claim's formula
`round(stod(s) × 10^8)` wherever that formula determines the result. -/
def stod (s : String) : Option ℚ :=
  let cs := s.toList
  let intPart := cs.takeWhile Char.isDigit
  let rest := cs.dropWhile Char.isDigit
  match rest with
  | c :: rest2 =>
    if c == Char.ofNat 46 then
      let fracPart := rest2.takeWhile Char.isDigit
      if intPart.isEmpty && fracPart.isEmpty then none
      else some ((natOfDigits intPart : ℚ) +
        (natOfDigits fracPart : ℚ) / (10 : ℚ) ^ fracPart.length)
    else if intPart.isEmpty then none
    else some (natOfDigits intPart : ℚ)
  | [] => if intPart.isEmpty then none else some (natOfDigits intPart : ℚ)

/-- `static_cast<uint64_t>(std::round(price * PRICE_SCALE))` for the
nonnegative prices the model covers: round half away from zero is floor
of the value plus one half. -/
def priceToInt (p : ℚ) : Nat := ratTruncToNat (p * 100000000 + 1 / 2)

/-- `PriceLevel` from the exchange adapter interface. -/
structure PriceLevel where
  price_int : Nat
  size : ℚ
deriving DecidableEq, Repr

/-- `ParsedOrderBook` from the exchange adapter interface (quantities as
exact rationals, as for the order-book engine). -/
structure ParsedOrderBook where
  instrument : String
  bids : List PriceLevel
  asks : List PriceLevel
  is_snapshot : Bool
  timestamp_ms : Nat

/-- One `[priceStr, sizeStr]` entry of `data.b` / `data.a`: both elements
must be strings and both must convert; the price is scaled and rounded,
the size kept as converted. -/
def parseLevelEntry (e : Json) : Option PriceLevel :=
  match e.atStr 0, e.atStr 1 with
  | some ps, some ss =>
    match stod ps, stod ss with
    | some p, some s => some { price_int := priceToInt p, size := s }
    | _, _ => none
  | _, _ => none

/-- The `for (auto bid : bids)` loop body: convert entries in order,
aborting the whole parse on the first throwing entry. -/
def parseLevels : List Json → Option (List PriceLevel)
  | [] => some []
  | e :: rest =>
    match parseLevelEntry e, parseLevels rest with
    | some v, some vs => some (v :: vs)
    | _, _ => none

/-- One side array: an absent field is skipped (no levels); a present
non-array, or any entry that throws, fails the whole parse. -/
def parseSide (data : Json) (key : String) : Option (List PriceLevel) :=
  match data.find key with
  | none => some []
  | some (Json.arr xs) => parseLevels xs
  | some _ => none

/-- `BybitAdapter::parse_orderbook_message`.  `out0` is the caller's
`ParsedOrderBook` out-parameter before the call (the code pushes levels
onto its vectors and leaves `timestamp_ms` alone when `data.ts` is not an
integer); the result is `none` exactly when the function returns false. -/
def parse_orderbook_message (j : Json) (out0 : ParsedOrderBook) :
    Option ParsedOrderBook :=
  match j.getStr "topic" with
  | none => none
  | some topic =>
    if containsSub topic.toList ("orderbook".toList) then
      match afterLastDot topic.toList with
      | none => none
      | some instChars =>
        match j.find "data" with
        | none => none
        | some data =>
          match parseSide data "b", parseSide data "a" with
          | some bs, some asks2 =>
            some { instrument := String.mk instChars
                   bids := out0.bids ++ bs
                   asks := out0.asks ++ asks2
                   is_snapshot := j.getStr "type" == some "snapshot"
                   timestamp_ms := (data.getNat "ts").getD out0.timestamp_ms }
          | _, _ => none
    else none

/-- The C8 counterexample message: topic exactly `orderbook` (so the claim's
prefix condition holds) with a well-formed `data` object. -/
def c8Msg : Json :=
  Json.obj [("topic", Json.str "orderbook"), ("data", Json.obj [])]

/-- A fresh out-parameter. -/
def emptyParsedBook : ParsedOrderBook :=
  { instrument := "", bids := [], asks := [], is_snapshot := false, timestamp_ms := 0 }

/-- C8 counterexample: a message whose topic has prefix `orderbook` (it is
the whole topic) and whose `data` is present still fails to parse, because
the code requires a dot in the topic (`rfind` must succeed) — so "succeeds
exactly on messages whose topic has prefix orderbook" is false.  (The
prefix condition is also not what the code tests: it uses substring
containment, `topic.find("orderbook") != npos`.) -/
theorem parse_orderbook_prefix_claim_refuted :
    listLeads ("orderbook".toList) ("orderbook".toList) = true ∧
      parse_orderbook_message c8Msg emptyParsedBook = none := by
  constructor
  · rfl
  · rfl

/-- Side levels as the amended claim words them: an absent `data.b` /
`data.a` contributes no levels; a present array must have every entry a
`[priceStr, sizeStr]` pair of convertible strings, each contributing
`(round(stod(priceStr) × 10^8), stod(sizeStr))`; anything else rejects the
message. -/
def specSideLevels (data : Json) (key : String) : Option (List PriceLevel) :=
  match data.find key with
  | none => some []
  | some (Json.arr xs) =>
    if xs.all (fun e => (parseLevelEntry e).isSome) then
      some (xs.filterMap parseLevelEntry)
    else none
  | some _ => none

/-- The amended claim as a function: the parse succeeds exactly on messages
with a string `topic` that contains the substring `orderbook` (containment,
not prefix) and at least one dot, a present `data` field, and well-formed
level arrays; on success the instrument is the substring after the final
dot, `is_snapshot` holds exactly when the `type` field is the string
`snapshot` (false when absent or non-string), bids and asks are the
converted `data.b` / `data.a` entries appended to the out-parameter's
vectors, and the timestamp is the integer `data.ts` when present, the
out-parameter's prior value otherwise. -/
def specBybitParse (j : Json) (out0 : ParsedOrderBook) : Option ParsedOrderBook :=
  match j.getStr "topic" with
  | none => none
  | some topic =>
    match afterLastDot topic.toList, j.find "data" with
    | some instChars, some data =>
      if containsSub topic.toList ("orderbook".toList) then
        match specSideLevels data "b", specSideLevels data "a" with
        | some bs, some asks2 =>
          some { instrument := String.mk instChars
                 bids := out0.bids ++ bs
                 asks := out0.asks ++ asks2
                 is_snapshot := j.getStr "type" == some "snapshot"
                 timestamp_ms := (data.getNat "ts").getD out0.timestamp_ms }
        | _, _ => none
      else none
    | _, _ => none

theorem parseLevels_eq_filterMap (xs : List Json) :
    parseLevels xs =
      if xs.all (fun e => (parseLevelEntry e).isSome) then
        some (xs.filterMap parseLevelEntry)
      else none := by
  induction xs with
  | nil => simp [parseLevels]
  | cons e rest ih =>
    cases he : parseLevelEntry e with
    | none => simp [parseLevels, he]
    | some v =>
      by_cases hall : rest.all (fun e2 => (parseLevelEntry e2).isSome) <;>
        simp [parseLevels, he, ih, hall]

theorem parseSide_eq_spec (data : Json) (key : String) :
    parseSide data key = specSideLevels data key := by
  unfold parseSide specSideLevels
  cases data.find key with
  | none => rfl
  | some v => cases v <;> simp [parseLevels_eq_filterMap]

/-- C8 amended: `parse_orderbook_message` behaves exactly as the amended
claim describes (`specBybitParse`): success requires topic containment of
`orderbook` (not a prefix check), a dot in the topic, and a present `data`
field; instrument, snapshot flag, level conversion and timestamp are as the
claim states. -/
theorem bybit_parse_follows_amended_claim (j : Json) (out0 : ParsedOrderBook) :
    parse_orderbook_message j out0 = specBybitParse j out0 := by
  unfold parse_orderbook_message specBybitParse
  cases htopic : j.getStr "topic" with
  | none => simp only [htopic]
  | some topic =>
    cases hdot : afterLastDot topic.toList with
    | none =>
      simp only [htopic, hdot]
      split <;> rfl
    | some instChars =>
      cases hdata : j.find "data" with
      | none =>
        simp only [htopic, hdot, hdata]
        split <;> rfl
      | some data =>
        simp only [htopic, hdot, hdata, parseSide_eq_spec]

/-! ## Reconnect handler chain (boost_websocket_client.cpp)

`attempt_reconnect_async` and its continuation handlers (`on_resolve`,
`on_connect`, `on_ssl_handshake`, `on_handshake`, `do_read`) all run on the
session's single io-context thread, so one reconnect attempt's observable
behaviour is the sequence of actions that thread performs.  The embedding
replays an attempt as the event trace the handlers emit, driven by the
success of each async step and by the inbound messages the read loop would
deliver on the new connection. -/

inductive WsEvent where
  | wsHandshakeDone
  | retryCountReset
  | reconnectCallback
  | readPosted
  | msgEnqueued (i : Nat)
  | scheduleRetry
deriving DecidableEq, Repr

/-- One reconnect attempt's environment: whether each async step succeeds
and which inbound messages the socket delivers afterwards. -/
structure AttemptOutcome where
  resolve_ok : Bool
  tcp_ok : Bool
  ssl_ok : Bool
  ws_ok : Bool
  messages : List Nat
deriving DecidableEq, Repr

/-- `on_handshake`: on error schedule a retry; on success the handshake has
completed, the handler sets connected/Connected, resets the retry counter
to zero, invokes the reconnect callback, and only then posts the first
async read, after which inbound messages are enqueued in arrival order. -/
def on_handshake_trace (ok : Bool) (msgs : List Nat) : List WsEvent :=
  if ok then
    [WsEvent.wsHandshakeDone, WsEvent.retryCountReset, WsEvent.reconnectCallback,
      WsEvent.readPosted] ++ msgs.map WsEvent.msgEnqueued
  else [WsEvent.scheduleRetry]

/-- The whole handler chain of one reconnect attempt
(`attempt_reconnect_async` → `on_resolve` → `on_connect` →
`on_ssl_handshake` → `on_handshake`): every failed step schedules a retry
and nothing else observable happens; the retry counter is written nowhere
before `on_handshake`. -/
def attempt_reconnect_trace (o : AttemptOutcome) : List WsEvent :=
  if !o.resolve_ok then [WsEvent.scheduleRetry]
  else if !o.tcp_ok then [WsEvent.scheduleRetry]
  else if !o.ssl_ok then [WsEvent.scheduleRetry]
  else on_handshake_trace o.ws_ok o.messages

/-- C6: in every reconnect attempt, the retry counter is reset exactly when
the WebSocket handshake completed (never earlier in the connect sequence,
and strictly after the completion); the reconnect callback runs strictly
after the handshake completion; and every inbound message of the new
connection is enqueued strictly after the reconnect callback ran. -/
theorem reconnect_callback_ordering (o : AttemptOutcome) :
    (WsEvent.retryCountReset ∈ attempt_reconnect_trace o ↔
      WsEvent.wsHandshakeDone ∈ attempt_reconnect_trace o) ∧
      (WsEvent.reconnectCallback ∈ attempt_reconnect_trace o →
        (attempt_reconnect_trace o).indexOf WsEvent.wsHandshakeDone <
          (attempt_reconnect_trace o).indexOf WsEvent.reconnectCallback) ∧
      (WsEvent.retryCountReset ∈ attempt_reconnect_trace o →
        (attempt_reconnect_trace o).indexOf WsEvent.wsHandshakeDone <
          (attempt_reconnect_trace o).indexOf WsEvent.retryCountReset) ∧
      (∀ m, WsEvent.msgEnqueued m ∈ attempt_reconnect_trace o →
        (attempt_reconnect_trace o).indexOf WsEvent.reconnectCallback <
          (attempt_reconnect_trace o).indexOf (WsEvent.msgEnqueued m)) := by
  obtain ⟨r, t, s, w, msgs⟩ := o
  cases r
  · simp [attempt_reconnect_trace]
  cases t
  · simp [attempt_reconnect_trace]
  cases s
  · simp [attempt_reconnect_trace]
  cases w
  · simp [attempt_reconnect_trace, on_handshake_trace]
  refine ⟨by simp [attempt_reconnect_trace, on_handshake_trace], ?_, ?_, ?_⟩
  · intro _
    simp [attempt_reconnect_trace, on_handshake_trace, List.indexOf_cons]
  · intro _
    simp [attempt_reconnect_trace, on_handshake_trace, List.indexOf_cons]
  · intro m _
    simp only [attempt_reconnect_trace, on_handshake_trace, Bool.not_true,
      Bool.false_eq_true, if_false, if_true]
    simp [List.indexOf_cons]

/-- C6 witness: the ordering theorem at a successful reconnect with one
inbound message: the callback's trace position is strictly after the
handshake completion. -/
theorem reconnect_callback_ordering_witness :
    (attempt_reconnect_trace
        { resolve_ok := true, tcp_ok := true, ssl_ok := true, ws_ok := true,
          messages := [5] }).indexOf WsEvent.wsHandshakeDone <
      (attempt_reconnect_trace
        { resolve_ok := true, tcp_ok := true, ssl_ok := true, ws_ok := true,
          messages := [5] }).indexOf WsEvent.reconnectCallback :=
  (reconnect_callback_ordering
    { resolve_ok := true, tcp_ok := true, ssl_ok := true, ws_ok := true,
      messages := [5] }).2.1 (by decide)

/-- `UDP_FEED_MAGIC` ("HFTD"). -/
def UDP_FEED_MAGIC : Nat := 0x48465444

/-- `UDP_FEED_VERSION`. -/
def UDP_FEED_VERSION : Nat := 1

/-- A `PriceLevel` as the publisher serializes it: the u64 scaled price and
the quantity double as its 64-bit IEEE-754 bit pattern (the code only ever
`memcpy`s and byte-swaps those bits, so the pattern is the faithful
representation here). -/
structure WirePriceLevel where
  price_int : Nat
  size_bits : Nat

/-- The fields of a `ParsedOrderBook` that `serialize_and_send` reads: the
symbol bytes, the two level vectors, and the snapshot flag (the book's
`timestamp_ms` is unused — the header timestamp is read from the monotonic
clock at publish time and is a parameter below). -/
structure WireOrderBook where
  instrument : List Nat
  bids : List WirePriceLevel
  asks : List WirePriceLevel
  is_snapshot : Bool

/-- The packed `UdpMarketHeader` struct: field values as stored (that is,
already byte-swapped by the code). -/
structure UdpMarketHeader where
  magic : Nat
  version : Nat
  msg_type : Nat
  exchange_id : Nat
  timestamp_ns : Nat
  symbol_len : Nat
  bid_count : Nat
  ask_count : Nat

/-- Memory image of the packed header on a little-endian host: each field
contributes exactly its width in bytes, in declaration order, with no
padding (`__attribute__((packed))`). -/
def headerBytes (h : UdpMarketHeader) : List Nat :=
  toBytesLE 4 h.magic ++ toBytesLE 2 h.version ++ [h.msg_type % 256] ++
    [h.exchange_id % 256] ++ toBytesLE 8 h.timestamp_ns ++ toBytesLE 4 h.symbol_len ++
    toBytesLE 2 h.bid_count ++ toBytesLE 2 h.ask_count

/-- Memory image of one packed `UdpPriceLevel` as the code fills it:
byte-swapped u64 price, then the quantity's byte-swapped bit pattern. -/
def levelBytes (l : WirePriceLevel) : List Nat :=
  toBytesLE 8 (cpu_to_be_64 l.price_int) ++ toBytesLE 8 (cpu_to_be_64 l.size_bits)

/-- `UdpPublisher::serialize_and_send`, as the single datagram it passes to
`sendto`: header struct bytes, symbol bytes (no terminator), bid levels,
ask levels.  `exchange_id` is the venue's u8 id, `now_ns` the monotonic
clock value read during the call. -/
def serialize_and_send (book : WireOrderBook) (exchange_id : Nat) (now_ns : Nat) :
    List Nat :=
  let header : UdpMarketHeader :=
    { magic := htonl UDP_FEED_MAGIC
      version := htons UDP_FEED_VERSION
      msg_type := if book.is_snapshot then 1 else 2
      exchange_id := exchange_id
      timestamp_ns := cpu_to_be_64 now_ns
      symbol_len := htonl book.instrument.length
      bid_count := htons book.bids.length
      ask_count := htons book.asks.length }
  headerBytes header ++ book.instrument ++
    (book.bids.map levelBytes).flatten ++ (book.asks.map levelBytes).flatten

/-- The claim's level layout: u64 big-endian price, then the quantity's
IEEE-754 bits in big-endian byte order. -/
def specLevelBytes (l : WirePriceLevel) : List Nat :=
  toBytesBE 8 l.price_int ++ toBytesBE 8 l.size_bits

/-- The claim's datagram layout, field by field as the spec's frame table
words it. -/
def specUdpFrame (book : WireOrderBook) (exchange_id : Nat) (now_ns : Nat) :
    List Nat :=
  toBytesBE 4 0x48465444 ++ toBytesBE 2 1 ++
    [if book.is_snapshot then 1 else 2] ++ [exchange_id % 256] ++
    toBytesBE 8 now_ns ++ toBytesBE 4 book.instrument.length ++
    toBytesBE 2 book.bids.length ++ toBytesBE 2 book.asks.length ++
    book.instrument ++
    (book.bids.map specLevelBytes).flatten ++ (book.asks.map specLevelBytes).flatten

theorem levelBytes_eq_spec : levelBytes = specLevelBytes := by
  funext l
  simp [levelBytes, specLevelBytes, cpu_to_be_64, toBytesLE_bswap]

/-- C5: for every parsed book, venue id and publish timestamp, the single
datagram `serialize_and_send` emits has exactly the byte layout the claim
states: BE magic 0x48465444, BE version 1, msg_type 1/2 by the snapshot
flag, venue u8, BE u64 timestamp, BE u32 symbol length, BE u16 level
counts, the symbol bytes unterminated, then the bid and ask levels as BE
u64 price plus big-endian IEEE-754 quantity bits. -/
theorem serialize_and_send_layout (book : WireOrderBook) (exchange_id now_ns : Nat) :
    serialize_and_send book exchange_id now_ns = specUdpFrame book exchange_id now_ns := by
  cases hs : book.is_snapshot <;>
    simp only [serialize_and_send, specUdpFrame, headerBytes, levelBytes_eq_spec,
      htonl, htons, cpu_to_be_64, toBytesLE_bswap, UDP_FEED_MAGIC, UDP_FEED_VERSION, hs] <;>
    norm_num

end DpdkCex
